import Mathlib

/-!
Verification of the frequency-distribution calculator in
`src/src/App.jsx` (function `calculateFrequencyDistribution`, plus the
empty-input guard in `handleFileUpload`).

Modelling conventions:
* JavaScript numbers are modelled as exact rationals (`ℚ`).
* `Math.log10(n)` is transcendental; the embedding takes the value of
  `Math.log10(sortedData.length)` as an explicit parameter `lg : ℚ`, and
  theorems constrain `lg` by the rational bounds that any reasonable
  floating-point evaluation of `log10` satisfies (e.g. `lg = 1` for
  `n = 10`, `10/33 < lg ≤ 20/33` for `n = 3`).
* `[...values].sort((a, b) => a - b)` sorts a copy of the input
  ascending; it is modelled by `List.insertionSort (· ≤ ·)`, which
  produces the same (sorted) list as any comparison sort.
* The code stores the class bounds inside the template string
  `classInterval` = `lowerLimit - upperLimit`; the model keeps the two
  interpolated numbers as the fields `lowerLimit` and `upperLimit`.
-/

namespace DistribusiFrekuensi

/-- One row of the `frequencyTable` pushed in the loop of
`calculateFrequencyDistribution` (App.jsx lines 103-122). -/
structure ClassRecord where
  lowerLimit : ℚ
  upperLimit : ℚ
  lowerEdge : ℚ
  upperEdge : ℚ
  midpoint : ℚ
  frequency : ℕ
  deriving Repr, DecidableEq

/-- The object passed to `setResults` (App.jsx lines 126-136). -/
structure DistributionResult where
  data : List ℚ
  minValue : ℚ
  maxValue : ℚ
  range : ℚ
  numberOfClasses : ℤ
  rawNumberOfClasses : ℚ
  classWidth : ℤ
  rawClassWidth : ℚ
  frequencyTable : List ClassRecord
  deriving Repr, DecidableEq

/-- `Math.min(...l)` for a non-empty spread (the calculator is only
invoked on non-empty data, see the guard in `handleFileUpload`). -/
def jsMin : List ℚ → ℚ
  | [] => 0
  | x :: xs => xs.foldl min x

/-- `Math.max(...l)` for a non-empty spread. -/
def jsMax : List ℚ → ℚ
  | [] => 0
  | x :: xs => xs.foldl max x

/-- The `for` loop of App.jsx lines 102-123: build `k` consecutive class
records of width `classWidth` starting at `lowerLimit`, counting in each
class the values `v` of `sortedData` with
`lowerLimit ≤ v && v ≤ upperLimit`. -/
def buildClasses (sortedData : List ℚ) (classWidth : ℤ) :
    ℕ → ℚ → List ClassRecord
  | 0, _ => []
  | k + 1, lowerLimit =>
    let upperLimit : ℚ := lowerLimit + classWidth - 1
    { lowerLimit := lowerLimit
      upperLimit := upperLimit
      lowerEdge := lowerLimit - 1/2
      upperEdge := upperLimit + 1/2
      midpoint := (lowerLimit + upperLimit) / 2
      frequency :=
        (sortedData.filter fun v =>
          decide (lowerLimit ≤ v ∧ v ≤ upperLimit)).length } ::
      buildClasses sortedData classWidth k (upperLimit + 1)

/-- App.jsx lines 74-136 after the sort: everything
`calculateFrequencyDistribution` derives from `sortedData`, given the
value `lg` of `Math.log10(sortedData.length)`. -/
def calcFromSorted (lg : ℚ) (sortedData : List ℚ) : DistributionResult :=
  let minValue := jsMin sortedData
  let maxValue := jsMax sortedData
  let range := maxValue - minValue
  let rawNumberOfClasses : ℚ := 1 + 33/10 * lg
  let numberOfClasses : ℤ := ⌈rawNumberOfClasses⌉
  let rawClassWidth : ℚ := range / (numberOfClasses : ℚ)
  let classWidth : ℤ := ⌈rawClassWidth⌉
  { data := sortedData
    minValue := minValue
    maxValue := maxValue
    range := range
    numberOfClasses := numberOfClasses
    rawNumberOfClasses := rawNumberOfClasses
    classWidth := classWidth
    rawClassWidth := rawClassWidth
    frequencyTable :=
      buildClasses sortedData classWidth numberOfClasses.toNat minValue }

/-- `calculateFrequencyDistribution` (App.jsx lines 72-137): sort a copy
of `values` ascending, then compute range, Sturges class count, class
width and the frequency table.  `lg` is the value of
`Math.log10(values.length)`. -/
def calculateFrequencyDistribution (lg : ℚ) (values : List ℚ) :
    DistributionResult :=
  calcFromSorted lg (List.insertionSort (· ≤ ·) values)

/-- The numeric core of `handleFileUpload` (App.jsx lines 58-63): an
empty `values` throws before `calculateFrequencyDistribution` is called,
so `Math.log10(0)` is never evaluated. -/
def processValues (lg : ℚ) (values : List ℚ) :
    Except String DistributionResult :=
  if values.length = 0 then
    Except.error "Tidak ada data numerik yang ditemukan dalam file."
  else
    Except.ok (calculateFrequencyDistribution lg values)

/-- The spec's Sturges formula (§8): `ceil(1 + 3.3 * log10 n)`, stated
for a given value `lg` of `log10 n`. -/
def sturgesSpec (lg : ℚ) : ℤ := ⌈(1 : ℚ) + 33/10 * lg⌉

/-- The spec's class-width formula (§8):
`classWidth == max(1, ceil(range / numberOfClasses))`. -/
def classWidthSpec (range : ℚ) (numberOfClasses : ℤ) : ℤ :=
  max 1 ⌈range / (numberOfClasses : ℚ)⌉

/-- A rational in the interval `(10/33, 20/33)` that every
floating-point evaluation of `Math.log10(3) ≈ 0.4771212547` lies in;
used for concrete three-element inputs. -/
def log10three : ℚ := 47712125471966244 / 100000000000000000

/-- Ceiling of the Sturges value for `n = 3`:
`ceil(1 + 3.3 * log10 3) = ceil(2.5745...) = 3`. -/
theorem ceil_sturges_log10three : ⌈(1 : ℚ) + 33/10 * log10three⌉ = 3 := by
  rw [Int.ceil_eq_iff, log10three]
  norm_num

/-- Ceiling of the Sturges value for `n = 10`:
`ceil(1 + 3.3 * 1) = ceil(4.3) = 5`. -/
theorem ceil_sturges_ten : ⌈(43 : ℚ) / 10⌉ = 5 := by
  rw [Int.ceil_eq_iff]
  norm_num

/-- `ceil(9/5) = 2`, the class width of scenario B. -/
theorem ceil_nine_fifths : ⌈(9 : ℚ) / 5⌉ = 2 := by
  rw [Int.ceil_eq_iff]
  norm_num

/-- `ceil(2/3) = 1`, the class width of the non-integer counterexample. -/
theorem ceil_two_thirds : ⌈(2 : ℚ) / 3⌉ = 1 := by
  rw [Int.ceil_eq_iff]
  norm_num

theorem foldl_min_le_init : ∀ (xs : List ℚ) (a : ℚ), xs.foldl min a ≤ a
  | [], a => le_refl a
  | x :: xs, a => le_trans (foldl_min_le_init xs (min a x)) (min_le_left a x)

theorem foldl_min_le_mem : ∀ (xs : List ℚ) (a v : ℚ), v ∈ xs → xs.foldl min a ≤ v := by
  intro xs
  induction xs with
  | nil => intro a v hv; cases hv
  | cons x xs ih =>
    intro a v hv
    rcases List.mem_cons.mp hv with h | h
    · subst h
      exact le_trans (foldl_min_le_init xs (min a v)) (min_le_right a v)
    · exact ih (min a x) v h

theorem foldl_min_mem : ∀ (xs : List ℚ) (a : ℚ), xs.foldl min a = a ∨ xs.foldl min a ∈ xs := by
  intro xs
  induction xs with
  | nil => intro a; exact Or.inl rfl
  | cons x xs ih =>
    intro a
    rcases ih (min a x) with h | h
    · rcases min_choice a x with hm | hm
      · exact Or.inl (by rw [List.foldl_cons, h, hm])
      · exact Or.inr (by rw [List.foldl_cons, h, hm]; exact List.mem_cons_self x xs)
    · exact Or.inr (List.mem_cons_of_mem x h)

theorem init_le_foldl_max : ∀ (xs : List ℚ) (a : ℚ), a ≤ xs.foldl max a
  | [], a => le_refl a
  | x :: xs, a => le_trans (le_max_left a x) (init_le_foldl_max xs (max a x))

theorem mem_le_foldl_max : ∀ (xs : List ℚ) (a v : ℚ), v ∈ xs → v ≤ xs.foldl max a := by
  intro xs
  induction xs with
  | nil => intro a v hv; cases hv
  | cons x xs ih =>
    intro a v hv
    rcases List.mem_cons.mp hv with h | h
    · subst h
      exact le_trans (le_max_right a v) (init_le_foldl_max xs (max a v))
    · exact ih (max a x) v h

theorem foldl_max_mem : ∀ (xs : List ℚ) (a : ℚ), xs.foldl max a = a ∨ xs.foldl max a ∈ xs := by
  intro xs
  induction xs with
  | nil => intro a; exact Or.inl rfl
  | cons x xs ih =>
    intro a
    rcases ih (max a x) with h | h
    · rcases max_choice a x with hm | hm
      · exact Or.inl (by rw [List.foldl_cons, h, hm])
      · exact Or.inr (by rw [List.foldl_cons, h, hm]; exact List.mem_cons_self x xs)
    · exact Or.inr (List.mem_cons_of_mem x h)

/-- `Math.min(...l)` is a lower bound of `l`. -/
theorem jsMin_le_of_mem {l : List ℚ} {v : ℚ} (hv : v ∈ l) : jsMin l ≤ v := by
  cases l with
  | nil => cases hv
  | cons x xs =>
    rcases List.mem_cons.mp hv with h | h
    · exact h ▸ foldl_min_le_init xs x
    · exact foldl_min_le_mem xs x v h

/-- `Math.max(...l)` is an upper bound of `l`. -/
theorem le_jsMax_of_mem {l : List ℚ} {v : ℚ} (hv : v ∈ l) : v ≤ jsMax l := by
  cases l with
  | nil => cases hv
  | cons x xs =>
    rcases List.mem_cons.mp hv with h | h
    · exact h ▸ init_le_foldl_max xs x
    · exact mem_le_foldl_max xs x v h

/-- On a non-empty list, `Math.min(...l)` is an element of `l`. -/
theorem jsMin_mem {l : List ℚ} (hl : l ≠ []) : jsMin l ∈ l := by
  cases l with
  | nil => exact absurd rfl hl
  | cons x xs =>
    rcases foldl_min_mem xs x with h | h
    · simp only [jsMin]
      rw [h]
      exact List.mem_cons_self x xs
    · exact List.mem_cons_of_mem x (by simpa [jsMin] using h)

/-- On a non-empty list, `Math.max(...l)` is an element of `l`. -/
theorem jsMax_mem {l : List ℚ} (hl : l ≠ []) : jsMax l ∈ l := by
  cases l with
  | nil => exact absurd rfl hl
  | cons x xs =>
    rcases foldl_max_mem xs x with h | h
    · simp only [jsMax]
      rw [h]
      exact List.mem_cons_self x xs
    · exact List.mem_cons_of_mem x (by simpa [jsMax] using h)

theorem length_buildClasses (s : List ℚ) (W : ℤ) :
    ∀ (k : ℕ) (L : ℚ), (buildClasses s W k L).length = k := by
  intro k
  induction k with
  | zero => intro L; rfl
  | succ k ih => intro L; simp only [buildClasses, List.length_cons, ih]

/-- Every class record produced by the loop satisfies
`upperLimit = lowerLimit + classWidth - 1` (App.jsx line 103). -/
theorem buildClasses_upper_sub_lower (s : List ℚ) (W : ℤ) :
    ∀ (k : ℕ) (L : ℚ) (c : ClassRecord), c ∈ buildClasses s W k L →
      c.upperLimit = c.lowerLimit + (W : ℚ) - 1 := by
  intro k
  induction k with
  | zero => intro L c hc; cases hc
  | succ k ih =>
    intro L c hc
    rcases List.mem_cons.mp hc with h | h
    · subst h; rfl
    · exact ih _ c h

/-- The `i`-th class record starts at `lowerLimit = minValue + i * classWidth`. -/
theorem buildClasses_lower (s : List ℚ) (W : ℤ) :
    ∀ (k : ℕ) (L : ℚ) (i : ℕ) (c : ClassRecord),
      (buildClasses s W k L)[i]? = some c → c.lowerLimit = L + (i : ℚ) * (W : ℚ) := by
  intro k
  induction k with
  | zero => intro L i c hc; simp [buildClasses] at hc
  | succ k ih =>
    intro L i c hc
    simp only [buildClasses] at hc
    cases i with
    | zero =>
      rw [List.getElem?_cons_zero] at hc
      cases hc
      simp
    | succ i =>
      rw [List.getElem?_cons_succ] at hc
      rw [ih _ i c hc]
      push_cast
      ring

/-- The `i`-th class record ends at `upperLimit = minValue + (i+1) * classWidth - 1`. -/
theorem buildClasses_upper (s : List ℚ) (W : ℤ) (k : ℕ) (L : ℚ) (i : ℕ) (c : ClassRecord)
    (hc : (buildClasses s W k L)[i]? = some c) :
    c.upperLimit = L + ((i : ℚ) + 1) * (W : ℚ) - 1 := by
  have h1 := buildClasses_lower s W k L i c hc
  have h2 := buildClasses_upper_sub_lower s W k L c (List.mem_iff_getElem?.mpr ⟨i, hc⟩)
  rw [h2, h1]
  ring

/-- `ceil(199/100) = 2`: the Sturges count used by the two-element witness input. -/
theorem ceil_sturges_two : ⌈(199 : ℚ) / 100⌉ = 2 := by
  rw [Int.ceil_eq_iff]
  norm_num

/-- `ceil(3/2) = 2`: the class width of the two-element witness input. -/
theorem ceil_three_halves : ⌈(3 : ℚ) / 2⌉ = 2 := by
  rw [Int.ceil_eq_iff]
  norm_num

theorem data_eq (lg : ℚ) (values : List ℚ) :
    (calculateFrequencyDistribution lg values).data =
      List.insertionSort (· ≤ ·) values := rfl

theorem minValue_eq (lg : ℚ) (values : List ℚ) :
    (calculateFrequencyDistribution lg values).minValue =
      jsMin (calculateFrequencyDistribution lg values).data := rfl

theorem maxValue_eq (lg : ℚ) (values : List ℚ) :
    (calculateFrequencyDistribution lg values).maxValue =
      jsMax (calculateFrequencyDistribution lg values).data := rfl

theorem range_eq (lg : ℚ) (values : List ℚ) :
    (calculateFrequencyDistribution lg values).range =
      (calculateFrequencyDistribution lg values).maxValue -
        (calculateFrequencyDistribution lg values).minValue := rfl

theorem numberOfClasses_eq (lg : ℚ) (values : List ℚ) :
    (calculateFrequencyDistribution lg values).numberOfClasses = sturgesSpec lg := rfl

theorem rawClassWidth_eq (lg : ℚ) (values : List ℚ) :
    (calculateFrequencyDistribution lg values).rawClassWidth =
      (calculateFrequencyDistribution lg values).range /
        ((calculateFrequencyDistribution lg values).numberOfClasses : ℚ) := rfl

theorem classWidth_eq (lg : ℚ) (values : List ℚ) :
    (calculateFrequencyDistribution lg values).classWidth =
      ⌈(calculateFrequencyDistribution lg values).rawClassWidth⌉ := rfl

theorem frequencyTable_eq (lg : ℚ) (values : List ℚ) :
    (calculateFrequencyDistribution lg values).frequencyTable =
      buildClasses (calculateFrequencyDistribution lg values).data
        (calculateFrequencyDistribution lg values).classWidth
        (calculateFrequencyDistribution lg values).numberOfClasses.toNat
        (calculateFrequencyDistribution lg values).minValue := rfl

/-- Sturges' rule yields at least one class when `log10 n ≥ 0`. -/
theorem one_le_sturgesSpec (lg : ℚ) (hlg : 0 ≤ lg) : 1 ≤ sturgesSpec lg := by
  have h : (0 : ℚ) < 1 + 33/10 * lg := by nlinarith
  have hc := Int.ceil_pos.mpr h
  show 1 ≤ ⌈(1 : ℚ) + 33/10 * lg⌉
  omega

/-- With a non-positive class width every class interval
`[lowerLimit, lowerLimit + classWidth - 1]` is empty, so every
frequency is 0. -/
theorem buildClasses_frequency_zero (s : List ℚ) (W : ℤ) (hW : W ≤ 0) :
    ∀ (k : ℕ) (L : ℚ) (r : ClassRecord), r ∈ buildClasses s W k L →
      r.frequency = 0 := by
  intro k
  induction k with
  | zero => intro L r hr; cases hr
  | succ k ih =>
    intro L r hr
    rcases List.mem_cons.mp hr with h | h
    · subst h
      show (s.filter fun v => decide (L ≤ v ∧ v ≤ L + (W : ℚ) - 1)).length = 0
      rw [List.length_eq_zero, List.filter_eq_nil_iff]
      intro v hv
      simp only [decide_eq_true_eq, not_and, not_le]
      intro h1
      have hWq : (W : ℚ) ≤ 0 := by exact_mod_cast hW
      linarith
    · exact ih _ r h

/-- Claim C4: the computed `numberOfClasses` is exactly the spec's
`ceil(1 + 3.3 * log10 n)` (for the given value `lg` of `log10 n`), and
it is at least 1 whenever `log10 n ≥ 0`, i.e. for every `n ≥ 1`. -/
theorem numberOfClasses_sturges (lg : ℚ) (values : List ℚ) (hlg : 0 ≤ lg) :
    (calculateFrequencyDistribution lg values).numberOfClasses = sturgesSpec lg ∧
    1 ≤ (calculateFrequencyDistribution lg values).numberOfClasses := by
  refine ⟨rfl, ?_⟩
  have h : (0 : ℚ) < 1 + 33/10 * lg := by nlinarith
  have hc := Int.ceil_pos.mpr h
  show 1 ≤ ⌈(1 : ℚ) + 33/10 * lg⌉
  omega

/-- Witness for C4 at `lg = 0` (`n = 1`), input `[1]`. -/
theorem numberOfClasses_sturges_witness :
    (0 : ℚ) ≤ 0 ∧
      ((calculateFrequencyDistribution 0 [1]).numberOfClasses = sturgesSpec 0 ∧
        1 ≤ (calculateFrequencyDistribution 0 [1]).numberOfClasses) :=
  ⟨le_refl 0, numberOfClasses_sturges 0 [1] (le_refl 0)⟩

/-- Claim C5: the result is invariant under permutation of the input:
two inputs with the same multiset of values produce the same
`DistributionResult`. -/
theorem perm_invariant (lg : ℚ) (v₁ v₂ : List ℚ) (h : v₁.Perm v₂) :
    calculateFrequencyDistribution lg v₁ = calculateFrequencyDistribution lg v₂ := by
  unfold calculateFrequencyDistribution
  congr 1
  exact List.eq_of_perm_of_sorted
    (((List.perm_insertionSort _ v₁).trans h).trans
      (List.perm_insertionSort _ v₂).symm)
    (List.sorted_insertionSort _ v₁) (List.sorted_insertionSort _ v₂)

/-- Witness for C5 on the permuted pair `[1,2]` / `[2,1]`. -/
theorem perm_invariant_witness :
    ([1, 2] : List ℚ).Perm [2, 1] ∧
      calculateFrequencyDistribution 0 [1, 2] = calculateFrequencyDistribution 0 [2, 1] :=
  ⟨by decide, perm_invariant 0 [1, 2] [2, 1] (by decide)⟩

/-- Claim C6: an empty numeric sequence is rejected with the descriptive
error thrown at App.jsx line 59, and no `DistributionResult` is ever
produced for it (so `Math.log10(0)` is never reached). -/
theorem emptyInput_rejected (lg : ℚ) (values : List ℚ) (h : values.length = 0) :
    processValues lg values =
      Except.error "Tidak ada data numerik yang ditemukan dalam file." ∧
    ∀ res : DistributionResult, processValues lg values ≠ Except.ok res := by
  have he : processValues lg values =
      Except.error "Tidak ada data numerik yang ditemukan dalam file." := by
    simp [processValues, h]
  refine ⟨he, fun res hok => ?_⟩
  rw [he] at hok
  cases hok

/-- Witness for C6 at the empty list. -/
theorem emptyInput_rejected_witness :
    ([] : List ℚ).length = 0 ∧
      (processValues 0 [] =
          Except.error "Tidak ada data numerik yang ditemukan dalam file." ∧
        ∀ res : DistributionResult, processValues 0 [] ≠ Except.ok res) :=
  ⟨rfl, emptyInput_rejected 0 [] rfl⟩

/-- Claim C7: adjacent classes are contiguous
(`upperLimit[i] + 1 = lowerLimit[i+1]`), and the first class starts at
`minValue`. -/
theorem classes_contiguous (lg : ℚ) (values : List ℚ) :
    (∀ (i : ℕ) (c c' : ClassRecord),
        (calculateFrequencyDistribution lg values).frequencyTable[i]? = some c →
        (calculateFrequencyDistribution lg values).frequencyTable[i + 1]? = some c' →
        c.upperLimit + 1 = c'.lowerLimit) ∧
    (∀ c : ClassRecord,
        (calculateFrequencyDistribution lg values).frequencyTable[0]? = some c →
        c.lowerLimit = (calculateFrequencyDistribution lg values).minValue) := by
  constructor
  · intro i c c' h1 h2
    have hl1 := buildClasses_lower _ _ _ _ i c h1
    have hl2 := buildClasses_lower _ _ _ _ (i + 1) c' h2
    have hu := buildClasses_upper _ _ _ _ i c h1
    rw [hu, hl2]
    push_cast
    ring
  · intro c h
    have h0 := buildClasses_lower _ _ _ _ 0 c h
    rw [h0]
    simp [calculateFrequencyDistribution, calcFromSorted]

/-- Witness for C7 on the input `[1,4]` with `lg = 0.3`: the two classes
are `[1-2]` and `[3-4]`. -/
theorem classes_contiguous_witness :
    ((calculateFrequencyDistribution (3/10) [1, 4]).frequencyTable[0]? =
        some ⟨1, 2, 1/2, 5/2, 3/2, 1⟩ ∧
      (calculateFrequencyDistribution (3/10) [1, 4]).frequencyTable[1]? =
        some ⟨3, 4, 5/2, 9/2, 7/2, 1⟩) ∧
    ((⟨1, 2, 1/2, 5/2, 3/2, 1⟩ : ClassRecord).upperLimit + 1 =
        (⟨3, 4, 5/2, 9/2, 7/2, 1⟩ : ClassRecord).lowerLimit ∧
      (⟨1, 2, 1/2, 5/2, 3/2, 1⟩ : ClassRecord).lowerLimit =
        (calculateFrequencyDistribution (3/10) [1, 4]).minValue) := by
  have htab : (calculateFrequencyDistribution (3/10) [1, 4]).frequencyTable =
      [⟨1, 2, 1/2, 5/2, 3/2, 1⟩, ⟨3, 4, 5/2, 9/2, 7/2, 1⟩] := by
    norm_num [calculateFrequencyDistribution, calcFromSorted, buildClasses, jsMin, jsMax,
      List.insertionSort, List.orderedInsert, min_def, max_def, ceil_sturges_two,
      ceil_three_halves]
  have h1 : (calculateFrequencyDistribution (3/10) [1, 4]).frequencyTable[0]? =
      some ⟨1, 2, 1/2, 5/2, 3/2, 1⟩ := by rw [htab]; rfl
  have h2 : (calculateFrequencyDistribution (3/10) [1, 4]).frequencyTable[1]? =
      some ⟨3, 4, 5/2, 9/2, 7/2, 1⟩ := by rw [htab]; rfl
  exact ⟨⟨h1, h2⟩, (classes_contiguous (3/10) [1, 4]).1 0 _ _ h1 h2,
    (classes_contiguous (3/10) [1, 4]).2 _ h1⟩

/-- Claim C1 (code bug): on the constant input `[5,5,5]` the code's
`classWidth` is `ceil(0/3) = 0`, while the spec formula
`max(1, ceil(range / numberOfClasses))` demands `1`: the guard that
coerces the width to at least 1 is absent from the code. -/
theorem classWidth_not_coerced_on_constant_input :
    (calculateFrequencyDistribution log10three [5, 5, 5]).classWidth = 0 ∧
    classWidthSpec (calculateFrequencyDistribution log10three [5, 5, 5]).range
      (calculateFrequencyDistribution log10three [5, 5, 5]).numberOfClasses = 1 := by
  norm_num [calculateFrequencyDistribution, calcFromSorted, buildClasses, jsMin, jsMax,
    List.insertionSort, List.orderedInsert, min_def, max_def, classWidthSpec,
    ceil_sturges_log10three]

/-- Claim C2 (code bug): on `[5,5,5]` the code returns `range = 0` and
`numberOfClasses = 3` as the claim says, but `classWidth = 0` (not 1)
and three empty classes `[5-4]` with frequencies `[0,0,0]` instead of
`[5-5],[6-6],[7-7]` with `[3,0,0]`. -/
theorem scenarioC_constant_input_actual_result :
    (calculateFrequencyDistribution log10three [5, 5, 5]).range = 0 ∧
    (calculateFrequencyDistribution log10three [5, 5, 5]).numberOfClasses = 3 ∧
    (calculateFrequencyDistribution log10three [5, 5, 5]).classWidth = 0 ∧
    (calculateFrequencyDistribution log10three [5, 5, 5]).frequencyTable.map
        (fun c => (c.lowerLimit, c.upperLimit, c.frequency)) =
      [(5, 4, 0), (5, 4, 0), (5, 4, 0)] := by
  norm_num [calculateFrequencyDistribution, calcFromSorted, buildClasses, jsMin, jsMax,
    List.insertionSort, List.orderedInsert, min_def, max_def, ceil_sturges_log10three]

/-- Claim C3 counterexample: on the non-integer input `[0.5, 1.7, 2.5]`
the final class's upperLimit (5/2) equals maxValue, yet the frequencies
sum to 2 while n = 3 — the value 1.7 falls in the gap between the
classes `[0.5-0.5]` and `[1.5-1.5]`. -/
theorem sum_frequency_shortfall_on_noninteger_input :
    (calculateFrequencyDistribution log10three
        [1/2, 17/10, 5/2]).frequencyTable.getLast?.map ClassRecord.upperLimit =
      some (5/2) ∧
    (calculateFrequencyDistribution log10three [1/2, 17/10, 5/2]).maxValue = 5/2 ∧
    ((calculateFrequencyDistribution log10three [1/2, 17/10, 5/2]).frequencyTable.map
      ClassRecord.frequency).sum = 2 ∧
    (calculateFrequencyDistribution log10three [1/2, 17/10, 5/2]).data.length = 3 := by
  norm_num [calculateFrequencyDistribution, calcFromSorted, buildClasses, jsMin, jsMax,
    List.insertionSort, List.orderedInsert, min_def, max_def, ceil_sturges_log10three,
    ceil_two_thirds]

/-- Claim C8: on `[1,...,10]` with `log10 10 = 1` the calculator returns
range 9, rawNumberOfClasses 4.3, numberOfClasses 5, rawClassWidth 1.8,
classWidth 2, and the classes `[1-2],[3-4],[5-6],[7-8],[9-10]` each with
frequency 2, summing to 10. -/
theorem scenarioB_one_to_ten :
    calculateFrequencyDistribution 1 [1, 2, 3, 4, 5, 6, 7, 8, 9, 10] =
      { data := [1, 2, 3, 4, 5, 6, 7, 8, 9, 10]
        minValue := 1
        maxValue := 10
        range := 9
        numberOfClasses := 5
        rawNumberOfClasses := 43/10
        classWidth := 2
        rawClassWidth := 9/5
        frequencyTable :=
          [⟨1, 2, 1/2, 5/2, 3/2, 2⟩, ⟨3, 4, 5/2, 9/2, 7/2, 2⟩,
           ⟨5, 6, 9/2, 13/2, 11/2, 2⟩, ⟨7, 8, 13/2, 17/2, 15/2, 2⟩,
           ⟨9, 10, 17/2, 21/2, 19/2, 2⟩] } ∧
    ((calculateFrequencyDistribution 1
        [1, 2, 3, 4, 5, 6, 7, 8, 9, 10]).frequencyTable.map
      ClassRecord.frequency).sum = 10 := by
  norm_num [calculateFrequencyDistribution, calcFromSorted, buildClasses, jsMin, jsMax,
    List.insertionSort, List.orderedInsert, min_def, max_def, ceil_sturges_ten,
    ceil_nine_fifths]

theorem jsMin_le_jsMax (l : List ℚ) : jsMin l ≤ jsMax l := by
  cases l with
  | nil => exact le_refl 0
  | cons x xs =>
    exact le_trans (jsMin_le_of_mem (List.mem_cons_self x xs))
      (le_jsMax_of_mem (List.mem_cons_self x xs))

/-- Counting elements satisfying two mutually exclusive predicates, each
implying a third, is bounded by the count for the third. -/
theorem length_filter_add_le (p q r : ℚ → Bool)
    (hpr : ∀ v, p v = true → r v = true)
    (hqr : ∀ v, q v = true → r v = true)
    (hdisj : ∀ v, ¬(p v = true ∧ q v = true)) :
    ∀ l : List ℚ, (l.filter p).length + (l.filter q).length ≤ (l.filter r).length := by
  intro l
  induction l with
  | nil => simp
  | cons x xs ih =>
    by_cases hp : p x = true
    · have hr := hpr x hp
      have hq : ¬q x = true := fun hq => hdisj x ⟨hp, hq⟩
      simp [List.filter_cons, hp, hq, hr]
      omega
    · by_cases hq : q x = true
      · have hr := hqr x hq
        simp [List.filter_cons, hp, hq, hr]
        omega
      · by_cases hr : r x = true <;>
          simp [List.filter_cons, hp, hq, hr] <;>
          omega

/-- The frequencies of the classes starting at `L` count at most the
values that are `≥ L`, hence at most all of them. -/
theorem sum_freq_le (s : List ℚ) (W : ℤ) (hW : 0 ≤ W) :
    ∀ (k : ℕ) (L : ℚ),
      ((buildClasses s W k L).map ClassRecord.frequency).sum ≤
        (s.filter fun v => decide (L ≤ v)).length := by
  intro k
  induction k with
  | zero => intro L; simp [buildClasses]
  | succ k ih =>
    intro L
    simp only [buildClasses, List.map_cons, List.sum_cons]
    have hrw : L + (W : ℚ) - 1 + 1 = L + (W : ℚ) := by ring
    rw [hrw]
    have hrest := ih (L + (W : ℚ))
    have hkey := length_filter_add_le
        (fun v => decide (L ≤ v ∧ v ≤ L + (W : ℚ) - 1))
        (fun v => decide (L + (W : ℚ) ≤ v))
        (fun v => decide (L ≤ v))
        (by
          intro v h
          simp only [decide_eq_true_eq] at h ⊢
          exact h.1)
        (by
          intro v h
          simp only [decide_eq_true_eq] at h ⊢
          have hWq : (0 : ℚ) ≤ (W : ℚ) := by exact_mod_cast hW
          linarith)
        (by
          intro v h
          simp only [decide_eq_true_eq] at h
          linarith [h.1.2, h.2])
        s
    omega

/-- Counting elements for two mutually exclusive predicates whose union
is a third predicate gives exactly the count for the third. -/
theorem length_filter_add_eq (p q r : ℚ → Bool) :
    ∀ l : List ℚ,
      (∀ v ∈ l, (r v = true ↔ (p v = true ∨ q v = true))) →
      (∀ v ∈ l, ¬(p v = true ∧ q v = true)) →
      (l.filter p).length + (l.filter q).length = (l.filter r).length := by
  intro l
  induction l with
  | nil => intro _ _; simp
  | cons x xs ih =>
    intro hiff hdisj
    have hx := hiff x (List.mem_cons_self x xs)
    have hdx := hdisj x (List.mem_cons_self x xs)
    have ih2 := ih (fun v hv => hiff v (List.mem_cons_of_mem x hv))
      (fun v hv => hdisj v (List.mem_cons_of_mem x hv))
    by_cases hp : p x = true
    · have hr : r x = true := hx.mpr (Or.inl hp)
      have hq : ¬q x = true := fun hq => hdx ⟨hp, hq⟩
      simp [List.filter_cons, hp, hq, hr]
      omega
    · by_cases hq : q x = true
      · have hr : r x = true := hx.mpr (Or.inr hq)
        simp [List.filter_cons, hp, hq, hr]
        omega
      · have hr : ¬r x = true := by
          intro hr
          rcases hx.mp hr with h | h
          · exact hp h
          · exact hq h
        simp [List.filter_cons, hp, hq, hr]
        omega

/-- Splitting an integer interval of `k+1` consecutive width-`W` blocks
at the end of the first block. -/
theorem int_interval_split (a z W kz : ℤ) (hW : 1 ≤ W) (hk : 0 ≤ kz) :
    (a ≤ z ∧ z ≤ a + (kz + 1) * W - 1) ↔
      ((a ≤ z ∧ z ≤ a + W - 1) ∨ (a + W ≤ z ∧ z ≤ a + W + kz * W - 1)) := by
  have hdist : (kz + 1) * W = kz * W + W := by ring
  have hkW : 0 ≤ kz * W := mul_nonneg hk (by omega)
  constructor
  · rintro ⟨h1, h2⟩
    rw [hdist] at h2
    by_cases h3 : z ≤ a + W - 1
    · exact Or.inl ⟨h1, h3⟩
    · refine Or.inr ⟨by linarith [not_le.mp h3], by linarith⟩
  · rintro (⟨h1, h2⟩ | ⟨h1, h2⟩)
    · rw [hdist]
      exact ⟨h1, by linarith⟩
    · rw [hdist]
      exact ⟨by linarith, by linarith⟩

/-- When every value is an integer, the classes of width `W ≥ 1`
starting at the integer `a` count exactly the values in
`[a, a + k*W - 1]`: consecutive integer intervals leave no gap on
integer data. -/
theorem sum_freq_eq_of_int (s : List ℚ) (W : ℤ) (hW : 1 ≤ W)
    (hs : ∀ v ∈ s, ∃ z : ℤ, (z : ℚ) = v) :
    ∀ (k : ℕ) (a : ℤ),
      ((buildClasses s W k (a : ℚ)).map ClassRecord.frequency).sum =
        (s.filter fun v =>
          decide ((a : ℚ) ≤ v ∧ v ≤ ((a + k * W - 1 : ℤ) : ℚ))).length := by
  intro k
  induction k with
  | zero =>
    intro a
    simp only [buildClasses, List.map_nil, List.sum_nil]
    symm
    rw [List.length_eq_zero, List.filter_eq_nil_iff]
    intro v hv
    simp only [decide_eq_true_eq, not_and, not_le]
    intro h1
    have hb : ((a + (0 : ℕ) * W - 1 : ℤ) : ℚ) = (a : ℚ) - 1 := by push_cast; ring
    rw [hb]
    linarith
  | succ k ih =>
    intro a
    simp only [buildClasses, List.map_cons, List.sum_cons]
    have hcast : (a : ℚ) + (W : ℚ) - 1 + 1 = ((a + W : ℤ) : ℚ) := by push_cast; ring
    rw [hcast, ih (a + W)]
    apply length_filter_add_eq
      (fun v => decide ((a : ℚ) ≤ v ∧ v ≤ (a : ℚ) + (W : ℚ) - 1))
      (fun v => decide (((a + W : ℤ) : ℚ) ≤ v ∧ v ≤ ((a + W + k * W - 1 : ℤ) : ℚ)))
      (fun v => decide ((a : ℚ) ≤ v ∧ v ≤ ((a + (k + 1 : ℕ) * W - 1 : ℤ) : ℚ)))
    · intro v hv
      obtain ⟨z, hz⟩ := hs v hv
      subst hz
      simp only [decide_eq_true_eq]
      have hsplit := int_interval_split a z W (k : ℤ) hW (Int.ofNat_nonneg k)
      constructor
      · intro h
        have hzint : a ≤ z ∧ z ≤ a + ((k : ℤ) + 1) * W - 1 := by
          constructor
          · exact_mod_cast h.1
          · have := h.2
            rw [show ((a + (k + 1 : ℕ) * W - 1 : ℤ) : ℚ) =
                ((a + ((k : ℤ) + 1) * W - 1 : ℤ) : ℚ) by push_cast; ring] at this
            exact_mod_cast this
        rcases hsplit.mp hzint with h | h
        · left
          constructor
          · exact_mod_cast h.1
          · have : ((z : ℚ)) ≤ ((a + W - 1 : ℤ) : ℚ) := by exact_mod_cast h.2
            rw [show ((a + W - 1 : ℤ) : ℚ) = (a : ℚ) + (W : ℚ) - 1 by push_cast; ring] at this
            exact this
        · right
          exact ⟨by exact_mod_cast h.1, by exact_mod_cast h.2⟩
      · intro h
        have hzint : a ≤ z ∧ z ≤ a + ((k : ℤ) + 1) * W - 1 := by
          apply hsplit.mpr
          rcases h with ⟨h1, h2⟩ | ⟨h1, h2⟩
          · left
            constructor
            · exact_mod_cast h1
            · have : ((z : ℚ)) ≤ ((a + W - 1 : ℤ) : ℚ) := by
                rw [show ((a + W - 1 : ℤ) : ℚ) = (a : ℚ) + (W : ℚ) - 1 by push_cast; ring]
                exact h2
              exact_mod_cast this
          · right
            exact ⟨by exact_mod_cast h1, by exact_mod_cast h2⟩
        constructor
        · exact_mod_cast hzint.1
        · have := hzint.2
          rw [show (a + ((k : ℤ) + 1) * W - 1 : ℤ) = (a + (k + 1 : ℕ) * W - 1 : ℤ) by
            push_cast; ring] at this
          exact_mod_cast this
    · intro v hv h
      simp only [decide_eq_true_eq] at h
      have h1 := h.1.2
      have h2 := h.2.1
      have : ((a + W : ℤ) : ℚ) ≤ (a : ℚ) + (W : ℚ) - 1 := le_trans h2 h1
      rw [show ((a + W : ℤ) : ℚ) = (a : ℚ) + (W : ℚ) by push_cast; ring] at this
      linarith

/-- When every value is an integer lying in `[a, a + k*W - 1]`, the
classes count every value exactly once. -/
theorem sum_freq_eq_full (s : List ℚ) (W : ℤ) (k : ℕ) (a : ℤ)
    (hW1 : 1 ≤ W)
    (hs : ∀ v ∈ s, ∃ z : ℤ, (z : ℚ) = v)
    (hlb : ∀ v ∈ s, (a : ℚ) ≤ v)
    (hub : ∀ v ∈ s, v ≤ ((a + k * W - 1 : ℤ) : ℚ)) :
    ((buildClasses s W k (a : ℚ)).map ClassRecord.frequency).sum = s.length := by
  rw [sum_freq_eq_of_int s W hW1 hs k a]
  have hself : s.filter
      (fun v => decide ((a : ℚ) ≤ v ∧ v ≤ ((a + k * W - 1 : ℤ) : ℚ))) = s := by
    rw [List.filter_eq_self]
    intro v hv
    simp only [decide_eq_true_eq]
    exact ⟨hlb v hv, hub v hv⟩
  rw [hself]

/-- Claim C3 (amended): the class frequencies sum to at most `n`; and
when every input value is an integer, the sum equals `n` whenever the
final class's `upperLimit` is at least `maxValue`.  (For non-integer
data the equality conjunct of the claim fails: see the counterexample
`sum_frequency_shortfall_on_noninteger_input`, where a value falls in
the open gap between consecutive integer-bounded classes.) -/
theorem sum_frequency_bound (lg : ℚ) (values : List ℚ)
    (hne : values ≠ []) (hlg : 0 ≤ lg) :
    (((calculateFrequencyDistribution lg values).frequencyTable.map
        ClassRecord.frequency).sum ≤ values.length) ∧
    ((∀ v ∈ values, v.den = 1) →
      ∀ c : ClassRecord,
        (calculateFrequencyDistribution lg values).frequencyTable.getLast? = some c →
        (calculateFrequencyDistribution lg values).maxValue ≤ c.upperLimit →
        ((calculateFrequencyDistribution lg values).frequencyTable.map
            ClassRecord.frequency).sum = values.length) := by
  have hK1 : 1 ≤ (calculateFrequencyDistribution lg values).numberOfClasses := by
    rw [numberOfClasses_eq]
    exact one_le_sturgesSpec lg hlg
  have hW0 : 0 ≤ (calculateFrequencyDistribution lg values).classWidth := by
    rw [classWidth_eq]
    apply Int.ceil_nonneg
    rw [rawClassWidth_eq, range_eq, maxValue_eq, minValue_eq]
    apply div_nonneg
    · exact sub_nonneg.mpr (jsMin_le_jsMax _)
    · have h0 : (0 : ℤ) ≤ (calculateFrequencyDistribution lg values).numberOfClasses := by
        omega
      exact_mod_cast h0
  have hlen : (calculateFrequencyDistribution lg values).data.length = values.length := by
    rw [data_eq]
    exact List.length_insertionSort (· ≤ ·) values
  constructor
  · rw [frequencyTable_eq]
    exact le_trans
      (sum_freq_le _ _ hW0 _ _)
      (le_of_le_of_eq (List.length_filter_le _ _) hlen)
  · intro hden c hlast hcover
    have hdata_ne : (calculateFrequencyDistribution lg values).data ≠ [] := by
      rw [data_eq]
      intro h
      apply hne
      have hlen2 := List.length_insertionSort (· ≤ ·) values
      rw [h] at hlen2
      exact List.length_eq_zero.mp hlen2.symm
    have hs : ∀ v ∈ (calculateFrequencyDistribution lg values).data,
        ∃ z : ℤ, (z : ℚ) = v := by
      intro v hv
      rw [data_eq] at hv
      exact ⟨v.num, (Rat.den_eq_one_iff v).mp
        (hden v ((List.perm_insertionSort _ values).mem_iff.mp hv))⟩
    obtain ⟨a, ha⟩ := hs _ (jsMin_mem hdata_ne)
    have hkpos : 1 ≤ (calculateFrequencyDistribution lg values).numberOfClasses.toNat := by
      omega
    rw [List.getLast?_eq_getElem?, frequencyTable_eq] at hlast
    have hup := buildClasses_upper _ _ _ _ _ c hlast
    rw [length_buildClasses] at hup
    have hcast : (((calculateFrequencyDistribution lg
          values).numberOfClasses.toNat - 1 : ℕ) : ℚ) + 1 =
        (((calculateFrequencyDistribution lg values).numberOfClasses.toNat : ℕ) : ℚ) := by
      rw [Nat.cast_sub hkpos]
      push_cast
      ring
    rw [hcast] at hup
    have hmin_le_upper : (calculateFrequencyDistribution lg values).minValue ≤
        c.upperLimit := by
      refine le_trans ?_ hcover
      rw [minValue_eq, maxValue_eq]
      exact jsMin_le_jsMax _
    have hkW : 1 ≤ ((calculateFrequencyDistribution lg
        values).numberOfClasses.toNat : ℤ) *
        (calculateFrequencyDistribution lg values).classWidth := by
      by_contra hcon
      push_neg at hcon
      have hq : (1 : ℚ) ≤
          (((calculateFrequencyDistribution lg values).numberOfClasses.toNat : ℕ) : ℚ) *
            ((calculateFrequencyDistribution lg values).classWidth : ℚ) := by
        rw [hup] at hmin_le_upper
        linarith
      have h3 : (1 : ℤ) ≤ ((calculateFrequencyDistribution lg
          values).numberOfClasses.toNat : ℤ) *
          (calculateFrequencyDistribution lg values).classWidth := by
        exact_mod_cast hq
      exact absurd h3 (not_le.mpr hcon)
    have hW1 : 1 ≤ (calculateFrequencyDistribution lg values).classWidth := by
      rcases le_or_lt 1 (calculateFrequencyDistribution lg values).classWidth with h | h
      · exact h
      · exfalso
        have hWle : (calculateFrequencyDistribution lg values).classWidth ≤ 0 := by omega
        have hprod : ((calculateFrequencyDistribution lg
            values).numberOfClasses.toNat : ℤ) *
            (calculateFrequencyDistribution lg values).classWidth ≤ 0 :=
          mul_nonpos_of_nonneg_of_nonpos (Int.ofNat_nonneg _) hWle
        exact absurd hkW (not_le.mpr (by linarith))
    have hlb : ∀ v ∈ (calculateFrequencyDistribution lg values).data, (a : ℚ) ≤ v := by
      intro v hv
      rw [ha, ← minValue_eq lg values]
      rw [minValue_eq]
      exact jsMin_le_of_mem hv
    have hub2 : ∀ v ∈ (calculateFrequencyDistribution lg values).data,
        v ≤ ((a + ((calculateFrequencyDistribution lg
            values).numberOfClasses.toNat : ℤ) *
          (calculateFrequencyDistribution lg values).classWidth - 1 : ℤ) : ℚ) := by
      intro v hv
      have h1 : v ≤ jsMax (calculateFrequencyDistribution lg values).data :=
        le_jsMax_of_mem hv
      rw [← maxValue_eq lg values] at h1
      have h3 := le_trans h1 hcover
      rw [hup, minValue_eq, ← ha] at h3
      have hc2 : ((a + ((calculateFrequencyDistribution lg
            values).numberOfClasses.toNat : ℤ) *
          (calculateFrequencyDistribution lg values).classWidth - 1 : ℤ) : ℚ) =
          (a : ℚ) + (((calculateFrequencyDistribution lg
            values).numberOfClasses.toNat : ℕ) : ℚ) *
            ((calculateFrequencyDistribution lg values).classWidth : ℚ) - 1 := by
        push_cast
        ring
      rw [hc2]
      exact h3
    rw [frequencyTable_eq, minValue_eq, ← ha]
    exact (sum_freq_eq_full _ _ _ _ hW1 hs hlb hub2).trans hlen

/-- Witness for C3 on the integer input `[1,4]` with `lg = 0.3`: the
classes `[1-2]`, `[3-4]` have frequencies `[1,1]` summing to `n = 2`,
and the final upperLimit 4 reaches the maximum. -/
theorem sum_frequency_bound_witness :
    (([1, 4] : List ℚ) ≠ [] ∧ (0 : ℚ) ≤ 3/10 ∧
      (∀ v ∈ ([1, 4] : List ℚ), v.den = 1) ∧
      (calculateFrequencyDistribution (3/10) [1, 4]).frequencyTable.getLast? =
        some ⟨3, 4, 5/2, 9/2, 7/2, 1⟩ ∧
      (calculateFrequencyDistribution (3/10) [1, 4]).maxValue ≤
        (⟨3, 4, 5/2, 9/2, 7/2, 1⟩ : ClassRecord).upperLimit) ∧
    (((calculateFrequencyDistribution (3/10) [1, 4]).frequencyTable.map
        ClassRecord.frequency).sum ≤ ([1, 4] : List ℚ).length ∧
      ((calculateFrequencyDistribution (3/10) [1, 4]).frequencyTable.map
          ClassRecord.frequency).sum = ([1, 4] : List ℚ).length) := by
  have htab : (calculateFrequencyDistribution (3/10) [1, 4]).frequencyTable =
      [⟨1, 2, 1/2, 5/2, 3/2, 1⟩, ⟨3, 4, 5/2, 9/2, 7/2, 1⟩] := by
    norm_num [calculateFrequencyDistribution, calcFromSorted, buildClasses, jsMin, jsMax,
      List.insertionSort, List.orderedInsert, min_def, max_def, ceil_sturges_two,
      ceil_three_halves]
  have hlast : (calculateFrequencyDistribution (3/10) [1, 4]).frequencyTable.getLast? =
      some ⟨3, 4, 5/2, 9/2, 7/2, 1⟩ := by rw [htab]; rfl
  have hmax : (calculateFrequencyDistribution (3/10) [1, 4]).maxValue ≤
      (⟨3, 4, 5/2, 9/2, 7/2, 1⟩ : ClassRecord).upperLimit := by
    norm_num [calculateFrequencyDistribution, calcFromSorted, jsMax,
      List.insertionSort, List.orderedInsert, min_def, max_def]
  have hden : ∀ v ∈ ([1, 4] : List ℚ), v.den = 1 := by decide
  refine ⟨⟨by decide, by norm_num, hden, hlast, hmax⟩, ?_, ?_⟩
  · exact (sum_frequency_bound (3/10) [1, 4] (by decide) (by norm_num)).1
  · exact (sum_frequency_bound (3/10) [1, 4] (by decide) (by norm_num)).2
      hden _ hlast hmax

/-- Claim C10: when all input values are equal, the code produces
`numberOfClasses` class records, each an empty interval with
`upperLimit = lowerLimit - 1` and frequency 0, and the frequencies sum
to 0 rather than `n`. -/
theorem constant_input_degenerate (lg : ℚ) (values : List ℚ) (c : ℚ)
    (hne : values ≠ []) (hc : ∀ v ∈ values, v = c) (hlg : 0 ≤ lg) :
    (((calculateFrequencyDistribution lg values).frequencyTable.length : ℤ) =
        (calculateFrequencyDistribution lg values).numberOfClasses) ∧
    (∀ r ∈ (calculateFrequencyDistribution lg values).frequencyTable,
        r.upperLimit = r.lowerLimit - 1 ∧ r.frequency = 0) ∧
    ((calculateFrequencyDistribution lg values).frequencyTable.map
        ClassRecord.frequency).sum = 0 ∧
    ((calculateFrequencyDistribution lg values).frequencyTable.map
        ClassRecord.frequency).sum ≠ values.length := by
  have hdata_mem : ∀ v ∈ (calculateFrequencyDistribution lg values).data, v = c := by
    intro v hv
    rw [data_eq] at hv
    exact hc v ((List.perm_insertionSort _ values).mem_iff.mp hv)
  have hdata_ne : (calculateFrequencyDistribution lg values).data ≠ [] := by
    rw [data_eq]
    intro h
    apply hne
    have hlen := List.length_insertionSort (· ≤ ·) values
    rw [h] at hlen
    exact List.length_eq_zero.mp hlen.symm
  have hmin : (calculateFrequencyDistribution lg values).minValue = c := by
    rw [minValue_eq]
    exact hdata_mem _ (jsMin_mem hdata_ne)
  have hmax : (calculateFrequencyDistribution lg values).maxValue = c := by
    rw [maxValue_eq]
    exact hdata_mem _ (jsMax_mem hdata_ne)
  have hrange : (calculateFrequencyDistribution lg values).range = 0 := by
    rw [range_eq, hmin, hmax, sub_self]
  have hW : (calculateFrequencyDistribution lg values).classWidth = 0 := by
    rw [classWidth_eq, rawClassWidth_eq, hrange, zero_div, Int.ceil_zero]
  have hK : 1 ≤ (calculateFrequencyDistribution lg values).numberOfClasses := by
    rw [numberOfClasses_eq]
    exact one_le_sturgesSpec lg hlg
  have hfreq0 : ∀ r ∈ (calculateFrequencyDistribution lg values).frequencyTable,
      r.frequency = 0 := by
    intro r hr
    rw [frequencyTable_eq, hW] at hr
    exact buildClasses_frequency_zero _ 0 (le_refl 0) _ _ r hr
  have hsum : ((calculateFrequencyDistribution lg values).frequencyTable.map
      ClassRecord.frequency).sum = 0 := by
    apply List.sum_eq_zero
    intro x hx
    rcases List.mem_map.mp hx with ⟨r, hr, hxr⟩
    rw [← hxr]
    exact hfreq0 r hr
  refine ⟨?_, ?_, hsum, ?_⟩
  · rw [frequencyTable_eq, length_buildClasses]
    exact Int.toNat_of_nonneg (by omega)
  · intro r hr
    refine ⟨?_, hfreq0 r hr⟩
    rw [frequencyTable_eq] at hr
    have := buildClasses_upper_sub_lower _ _ _ _ r hr
    rw [hW] at this
    rw [this]
    push_cast
    ring
  · rw [hsum]
    have hpos : 0 < values.length := List.length_pos.mpr hne
    omega

/-- Witness for C10 on `[5,5,5]`. -/
theorem constant_input_degenerate_witness :
    (([5, 5, 5] : List ℚ) ≠ [] ∧ (∀ v ∈ ([5, 5, 5] : List ℚ), v = 5) ∧
      (0 : ℚ) ≤ log10three) ∧
    ((((calculateFrequencyDistribution log10three [5, 5, 5]).frequencyTable.length : ℤ) =
        (calculateFrequencyDistribution log10three [5, 5, 5]).numberOfClasses) ∧
      (∀ r ∈ (calculateFrequencyDistribution log10three [5, 5, 5]).frequencyTable,
          r.upperLimit = r.lowerLimit - 1 ∧ r.frequency = 0) ∧
      ((calculateFrequencyDistribution log10three [5, 5, 5]).frequencyTable.map
          ClassRecord.frequency).sum = 0 ∧
      ((calculateFrequencyDistribution log10three [5, 5, 5]).frequencyTable.map
          ClassRecord.frequency).sum ≠ ([5, 5, 5] : List ℚ).length) :=
  ⟨⟨by decide, by decide, by norm_num [log10three]⟩,
    constant_input_degenerate log10three [5, 5, 5] 5 (by decide) (by decide)
      (by norm_num [log10three])⟩

/-- A heap of JavaScript number arrays; an array reference is an index
into the heap. -/
abbrev Heap := List (List ℚ)

/-- Reading the array behind reference `r` (an out-of-range read gives
an empty array; the theorems only use valid references). -/
def readArr (h : Heap) (r : ℕ) : List ℚ := h.getD r []

/-- Overwriting the array behind reference `r` in place. -/
def writeArr (h : Heap) (r : ℕ) (a : List ℚ) : Heap := h.set r a

/-- Heap-level embedding of App.jsx line 74,
`const sortedData = [...values].sort((a, b) => a - b)`: the spread
`[...values]` allocates a fresh copy of the argument array, `.sort`
mutates that copy in place, and the rest of the computation reads the
sorted copy.  The caller's reference `r` is never written. -/
def calculateFrequencyDistributionRef (lg : ℚ) (h : Heap) (r : ℕ) :
    Heap × DistributionResult :=
  let values := readArr h r
  let copyRef := h.length
  let h1 := h ++ [values]
  let h2 := writeArr h1 copyRef
    (List.insertionSort (· ≤ ·) (readArr h1 copyRef))
  (h2, calcFromSorted lg (readArr h2 copyRef))

/-- Claim C9: the calculator has no side effect on its input array —
after the call the array behind the input reference is unchanged, since
sorting happens on the spread copy — and the returned result is a
function of the input sequence alone. -/
theorem no_side_effects (lg : ℚ) (h : Heap) (r : ℕ) (hr : r < h.length) :
    readArr (calculateFrequencyDistributionRef lg h r).1 r = readArr h r ∧
    (calculateFrequencyDistributionRef lg h r).2 =
      calculateFrequencyDistribution lg (readArr h r) := by
  have hcopy : readArr (h ++ [readArr h r]) h.length = readArr h r := by
    simp [readArr, List.getElem?_concat_length]
  constructor
  · simp only [calculateFrequencyDistributionRef]
    rw [hcopy]
    simp only [readArr, writeArr, List.getD_eq_getElem?_getD]
    rw [List.getElem?_set_ne (ne_of_gt hr), List.getElem?_append_left hr]
  · simp only [calculateFrequencyDistributionRef, calculateFrequencyDistribution]
    congr 1
    rw [hcopy]
    simp only [readArr, writeArr, List.getD_eq_getElem?_getD]
    rw [List.getElem?_set_self (by simp)]
    simp

/-- Witness for C9 on the one-array heap `[[3,1,2]]`. -/
theorem no_side_effects_witness :
    0 < ([[3, 1, 2]] : Heap).length ∧
      (readArr (calculateFrequencyDistributionRef 0 [[3, 1, 2]] 0).1 0 =
          readArr [[3, 1, 2]] 0 ∧
        (calculateFrequencyDistributionRef 0 [[3, 1, 2]] 0).2 =
          calculateFrequencyDistribution 0 (readArr [[3, 1, 2]] 0)) :=
  ⟨by decide, no_side_effects 0 [[3, 1, 2]] 0 (by decide)⟩

end DistribusiFrekuensi
